import Mathlib

/-!
# Verification of the local camera search index (verkadacli)

Shallow embedding of `internal/cli/cameras_index.go` (and the record field
extractor `pickString` from the cameras command file): the tokenizer and
FTS-query builder, the path resolver, and the index store (SQLite tables
`cameras`, `labels`, `cameras_fts`, `meta`) with the rebuild transaction and
the best-effort label patcher.

Go strings are modelled as Lean `String`s and iterated rune-wise over
`String.data`.  `strings.ToLower` is modelled exactly on every rune the
indexed code distinguishes: ASCII `A`–`Z`, plus U+0130 and U+212A — the only
two runes whose Unicode simple lowercase mapping is an ASCII character.
Every other rune lowercases (in Go) to another non-ASCII rune, which the
tokenizer's `[a-z0-9]` class and the sanitizer's `[a-z0-9._-]` class treat
exactly like the rune itself, so the model keeps those runes fixed.
`unicode.IsSpace` is modelled on the Latin-1 range.
-/

namespace VerkCli

/-- Models `unicode.IsSpace` on the Latin-1 range (space, \t, \n, \v, \f, \r,
NEL U+0085, NBSP U+00A0); all whitespace the indexed code produces is ASCII. -/
def goIsSpace (c : Char) : Bool :=
  decide (c.toNat = 32 ∨ c.toNat = 9 ∨ c.toNat = 10 ∨ c.toNat = 11 ∨ c.toNat = 12 ∨
    c.toNat = 13 ∨ c.toNat = 133 ∨ c.toNat = 160)

/-- Models `unicode.ToLower` for a rune: ASCII `A`–`Z` map to `a`–`z`, and
the two non-ASCII runes whose simple lowercase mapping is ASCII are mapped
as Go does — U+0130 (`İ`) to `i` and U+212A (Kelvin sign) to `k`.  Every
other rune lowercases to a non-ASCII rune, indistinguishable from the rune
itself for the `[a-z0-9]` / `[a-z0-9._-]` classifications this code applies
afterwards, so the model returns it unchanged. -/
def goToLowerChar (c : Char) : Char :=
  if 65 ≤ c.toNat ∧ c.toNat ≤ 90 then Char.ofNat (c.toNat + 32)
  else if c.toNat = 304 then 'i'
  else if c.toNat = 8490 then 'k'
  else c

/-- Models `strings.ToLower` (rune-wise `unicode.ToLower`). -/
def goToLower (s : String) : String := String.mk (s.data.map goToLowerChar)

/-- Models `strings.TrimSpace` on a rune list: drop leading and trailing
whitespace. -/
def trimSpaceList (cs : List Char) : List Char :=
  ((cs.dropWhile goIsSpace).reverse.dropWhile goIsSpace).reverse

/-- Models `strings.TrimSpace`. -/
def trimSpace (s : String) : String := String.mk (trimSpaceList s.data)

/-- `firstNonEmpty` from the repository: first argument whose
`strings.TrimSpace` is non-empty, returned untrimmed; `""` if none. -/
def firstNonEmpty : List String → String
  | [] => ""
  | v :: rest => if trimSpace v ≠ "" then v else firstNonEmpty rest

/-- The character class kept by `tokenizeQuery`: ASCII `a`–`z` or `0`–`9`. -/
def isTokenChar (c : Char) : Bool :=
  decide ((97 ≤ c.toNat ∧ c.toNat ≤ 122) ∨ (48 ≤ c.toNat ∧ c.toNat ≤ 57))

/-- Accumulator form of `strings.Fields`: split around runs of whitespace.
`acc` holds the pending word reversed. -/
def goFieldsAux : List Char → List Char → List String
  | [], acc => if acc.isEmpty then [] else [String.mk acc.reverse]
  | c :: rest, acc =>
    if goIsSpace c then
      if acc.isEmpty then goFieldsAux rest []
      else String.mk acc.reverse :: goFieldsAux rest []
    else goFieldsAux rest (c :: acc)

/-- Models `strings.Fields`. -/
def goFields (cs : List Char) : List String := goFieldsAux cs []

/-- `tokenizeQuery` from `cameras_index.go`: lowercase, replace every rune
outside `[a-z0-9]` with a space, split into fields. -/
def tokenizeQuery (q : String) : List String :=
  let q := goToLower q
  let mapped := q.data.map (fun r => if isTokenChar r then r else ' ')
  goFields mapped

/-- `camerasSearchStopwords` from `cameras_index.go`. -/
def camerasSearchStopwords : List String :=
  ["a", "an", "and", "are", "at", "by", "for", "from",
   "in", "into", "is", "near", "of", "on", "or", "the", "to", "with",
   "camera", "cameras"]

/-- `buildFTSQuery` from `cameras_index.go`: filter stopwords, fall back to
the unfiltered tokens when everything was filtered, error when no token at
all, and join `tok*` terms with ` AND `.  (The Go `keep := toks[:0]` aliasing
is behaviourally the filter written here: `toks` is only reused when nothing
was ever appended to `keep`.) -/
def buildFTSQuery (q : String) : Except String String :=
  let toks := tokenizeQuery q
  let keep0 := toks.filter (fun t => ¬ camerasSearchStopwords.contains t)
  let keep := if keep0.isEmpty then toks else keep0
  if keep.isEmpty then .error "query has no searchable tokens"
  else
    let terms := (keep.filter (fun t => t ≠ "")).map (fun t => t ++ "*")
    if terms.isEmpty then .error "query has no searchable tokens"
    else .ok (String.intercalate " AND " terms)

/-- A JSON-decoded `any` value as it can appear in a `map[string]any` camera
record.  `num` covers JSON numbers (decoded to integral `float64` and rendered
with `strconv.FormatInt`; the indexed records carry no fractional numbers and
no `fmt.Stringer` can occur in a JSON-decoded map).  `other` covers `null`,
arrays and objects — the types `pickString`'s type switch does not render. -/
inductive JVal where
  | str (s : String)
  | num (n : Int)
  | boolean (b : Bool)
  | other
deriving Repr, DecidableEq

/-- A raw camera record: a JSON-decoded `map[string]any` (keys unique). -/
abbrev RawRecord := List (String × JVal)

/-- `pickString` from the cameras command file: walk the candidate keys in
order; a key present with a string / number / bool value is rendered and
returned immediately (a string is returned even when empty); an absent key, or
one whose value the type switch does not handle, falls through to the next
candidate; `""` when no candidate renders. -/
def pickString (m : RawRecord) : List String → String
  | [] => ""
  | k :: rest =>
    match m.lookup k with
    | some (.str t) => t
    | some (.num n) => toString n
    | some (.boolean b) => if b then "true" else "false"
    | some .other => pickString m rest
    | none => pickString m rest

/-- The candidate keys used for `camera_id` extraction. -/
def idKeys : List String := ["camera_id", "cameraId", "cameraID", "id"]

/-- A row of the `cameras` table (`camera_id` is the primary key); `raw`
stands for the `raw_json` serialization of the original record. -/
structure CameraRow where
  camera_id : String
  name : String
  site : String
  model : String
  serial : String
  status : String
  timezone : String
  updated_at : Int
  raw : RawRecord
deriving Repr, DecidableEq

/-- A row of the `labels` table (`camera_id` is the primary key). -/
structure LabelRow where
  camera_id : String
  label : String
  updated_at : Int
deriving Repr, DecidableEq

/-- A row of the `cameras_fts` FTS5 shadow table (no primary key;
`camera_id` is UNINDEXED). -/
structure FtsRow where
  camera_id : String
  name : String
  site : String
  label : String
  model : String
  serial : String
  status : String
  timezone : String
deriving Repr, DecidableEq

/-- The on-disk index store: the database file (whose existence `os.Stat`
checks) and the row contents of the four tables. -/
structure Store where
  fileExists : Bool
  cameras : List CameraRow
  labels : List LabelRow
  fts : List FtsRow
  meta : List (String × String)
deriving Repr, DecidableEq

/-- The provenance recorded in `meta`: `cfg.BaseURL`, `cfg.OrgID` and the
selected profile name. -/
structure Provenance where
  baseURL : String
  orgID : String
  profile : String
deriving Repr, DecidableEq

/-- `camerasIndexSchemaVersion`. -/
def camerasIndexSchemaVersion : Nat := 1

/-- The ways the modelled rebuild can fail: `MkdirAll` failing for the index
file's parent directory, or a primary-key violation on a row insert. -/
inductive BuildError where
  | mkdirFailed
  | insertConflict
deriving Repr, DecidableEq

/-- `INSERT INTO meta(key,value) VALUES(?,?) ON CONFLICT(key) DO UPDATE SET
value=excluded.value`: update the row in place when the key exists, append
otherwise. -/
def metaUpsert (m : List (String × String)) (k v : String) : List (String × String) :=
  if m.any (fun p => p.1 == k) then m.map (fun p => if p.1 == k then (k, v) else p)
  else m ++ [(k, v)]

/-- The `cameras` row built for one raw record inside the rebuild loop
(field extraction by prioritized key fallback, exactly the key lists of
`rebuildCamerasIndex`). -/
def camRowOf (now : Int) (c : RawRecord) : CameraRow :=
  { camera_id := pickString c idKeys
    name := pickString c ["name", "device_name", "deviceName"]
    site := pickString c ["site", "site_name", "siteName"]
    model := pickString c ["model", "device_model", "deviceModel"]
    serial := pickString c ["serial", "serial_number", "serialNumber"]
    status := pickString c ["status", "camera_status", "cameraStatus"]
    timezone := pickString c ["timezone", "time_zone", "timeZone"]
    updated_at := now
    raw := c }

/-- The `cameras_fts` row carrying a camera row's searchable fields plus a
label value. -/
def ftsRowOfCam (label : String) (r : CameraRow) : FtsRow :=
  { camera_id := r.camera_id, name := r.name, site := r.site, label := label
    model := r.model, serial := r.serial, status := r.status, timezone := r.timezone }

/-- The label the rebuild loop attaches to a record:
`strings.TrimSpace(labels[id])` (`""` when the map has no entry). -/
def labelFor (labels : List (String × String)) (id : String) : String :=
  trimSpace ((labels.lookup id).getD "")

/-- The per-record loop of `rebuildCamerasIndex`, run inside the transaction:
skip records whose trimmed id is empty; insert into `cameras` (primary-key
conflict aborts), into `labels` when the looked-up label is non-blank, and
into `cameras_fts` (which cannot conflict). `json.Marshal` of a JSON-decoded
map cannot fail and is not a failure case. -/
def insertRecords (labels : List (String × String)) (now : Int) :
    Store → List RawRecord → Except BuildError Store
  | t, [] => .ok t
  | t, c :: rest =>
    let id := pickString c idKeys
    if trimSpace id = "" then insertRecords labels now t rest
    else if t.cameras.any (fun r => r.camera_id == id) then .error .insertConflict
    else
      let row := camRowOf now c
      let lab := labelFor labels id
      let t1 := { t with cameras := t.cameras ++ [row] }
      if lab = "" then
        insertRecords labels now { t1 with fts := t1.fts ++ [ftsRowOfCam lab row] } rest
      else if t1.labels.any (fun r => r.camera_id == id) then .error .insertConflict
      else
        insertRecords labels now
          { t1 with labels := t1.labels ++ [⟨id, lab, now⟩],
                    fts := t1.fts ++ [ftsRowOfCam lab row] } rest

/-- `rebuildCamerasIndex`: create the parent directory (failure aborts before
any database operation), open/create the file and ensure the schema (row
contents untouched), then in one transaction delete all rows of `cameras`,
`labels` and `cameras_fts`, upsert the five `meta` keys, and run the insert
loop.  Commit on success; any failure rolls the transaction back, leaving the
pre-existing rows (the opened file remains). -/
def rebuildCamerasIndex (mkdirOk : Bool) (s : Store) (prov : Provenance)
    (cams : List RawRecord) (labels : List (String × String)) (now : Int) :
    Store × Option BuildError :=
  if ¬ mkdirOk then (s, some .mkdirFailed)
  else
    let sOpen := { s with fileExists := true }
    let t0 : Store := { sOpen with cameras := [], labels := [], fts := [] }
    let m1 := metaUpsert sOpen.meta "schema_version" (toString camerasIndexSchemaVersion)
    let m2 := metaUpsert m1 "built_at" (toString now)
    let m3 := metaUpsert m2 "base_url" prov.baseURL
    let m4 := metaUpsert m3 "org_id" prov.orgID
    let m5 := metaUpsert m4 "profile" prov.profile
    let t1 := { t0 with meta := m5 }
    match insertRecords labels now t1 cams with
    | .ok t => (t, none)
    | .error e => (sOpen, some e)

/-- `tryUpdateIndexLabel`: best-effort label patch.  No-op when the trimmed
camera id is empty or the index file does not exist; otherwise, in one
transaction, delete or upsert the `labels` row, then delete this id's
`cameras_fts` rows and re-insert them from the current `cameras` rows with the
new label.  The function is total: every error in the Go code is discarded. -/
def tryUpdateIndexLabel (s : Store) (cameraID : String) (label : Option String)
    (now : Int) : Store :=
  if trimSpace cameraID = "" then s
  else if ¬ s.fileExists then s
  else
    let newLabel := match label with | some l => trimSpace l | none => ""
    let s1 :=
      if newLabel = "" then
        { s with labels := s.labels.filter (fun r => ¬ (r.camera_id == cameraID)) }
      else if s.labels.any (fun r => r.camera_id == cameraID) then
        { s with labels := s.labels.map (fun r =>
            if r.camera_id == cameraID then { r with label := newLabel, updated_at := now } else r) }
      else { s with labels := s.labels ++ [⟨cameraID, newLabel, now⟩] }
    let s2 := { s1 with fts := s1.fts.filter (fun r => ¬ (r.camera_id == cameraID)) }
    { s2 with fts := s2.fts ++
        ((s2.cameras.filter (fun r => r.camera_id == cameraID)).map (ftsRowOfCam newLabel)) }

/-- `sanitizePathComponent`: trim, `"unknown"` on empty, lowercase, keep
`[a-z0-9._-]` and replace every other rune with `_`, trim `_` from both ends,
`"unknown"` when nothing remains. -/
def sanitizePathComponent (s : String) : String :=
  let t := trimSpace s
  if t = "" then "unknown"
  else
    let l := goToLower t
    let kept := l.data.map (fun r =>
      if (97 ≤ r.toNat ∧ r.toNat ≤ 122) ∨ (48 ≤ r.toNat ∧ r.toNat ≤ 57) ∨
          r = '.' ∨ r = '-' ∨ r = '_' then r else '_')
    let out := ((kept.dropWhile (fun c => c == '_')).reverse.dropWhile (fun c => c == '_')).reverse
    if out = [] then "unknown" else String.mk out

/-- `filepath.Clean` of an absolute path, on its slash-separated segments:
drop empty and `.` segments, let `..` remove the preceding segment (at the
root, `..` is discarded). -/
def cleanSegs (segs : List String) : List String :=
  segs.foldl
    (fun acc seg =>
      if seg = "" ∨ seg = "." then acc
      else if seg = ".." then acc.dropLast
      else acc ++ [seg])
    []

/-- `camerasIndexPath`, from the extracted base-URL host onward (upstream the
host defaults to `"unknown"` when the base URL is blank or unparsable), with
the user cache directory given as its segment list.  A path is modelled as the
cleaned segment list of `filepath.Join(cacheDir, "verkcli", "index", host,
org, profile, "cameras.sqlite")`; for slash-free non-empty segments this
determines the path string and vice versa. -/
def camerasIndexPath (cacheSegs : List String) (host org profile : String) :
    List String :=
  let h := sanitizePathComponent host
  let o := sanitizePathComponent (firstNonEmpty [org, "no-org"])
  let p := sanitizePathComponent (firstNonEmpty [profile, "default"])
  cleanSegs (cacheSegs ++ ["verkcli", "index", h, o, p, "cameras.sqlite"])

/-! ## Derived definitions used by the statements -/

/-- The composite rune map applied by `tokenizeQuery` before splitting:
lowercase, then keep `[a-z0-9]` and turn everything else into a space. -/
def tokMap (c : Char) : Char :=
  if isTokenChar (goToLowerChar c) then goToLowerChar c else ' '

/-- A rune the tokenizer treats as a separator (its lowercase form is outside
`[a-z0-9]`). -/
def isSepInput (c : Char) : Bool := ¬ isTokenChar (goToLowerChar c)

/-- Replace every maximal run of separator runes with one space (`prevSep`
records whether the previous input rune was part of such a run). -/
def collapseSepsAux : List Char → Bool → List Char
  | [], _ => []
  | c :: rest, prevSep =>
    if isSepInput c then
      if prevSep then collapseSepsAux rest true
      else ' ' :: collapseSepsAux rest true
    else c :: collapseSepsAux rest false

/-- Replace every maximal run of non-alphanumeric characters of a query with
a single separator. -/
def collapseSeps (s : String) : String := String.mk (collapseSepsAux s.data false)

/-- An ASCII alphanumeric rune (`A`–`Z`, `a`–`z` or `0`–`9`). -/
def isAsciiAlnum (c : Char) : Bool :=
  decide ((65 ≤ c.toNat ∧ c.toNat ≤ 90) ∨ (97 ≤ c.toNat ∧ c.toNat ≤ 122) ∨
    (48 ≤ c.toNat ∧ c.toNat ≤ 57))

/-- A rune that Go's lowercasing sends into the tokenizer's kept class
`[a-z0-9]`: the ASCII alphanumerics, plus U+0130 (`İ`, lowercases to `i`)
and U+212A (Kelvin sign, lowercases to `k`). -/
def lowersToAlnum (c : Char) : Bool :=
  decide ((65 ≤ c.toNat ∧ c.toNat ≤ 90) ∨ (97 ≤ c.toNat ∧ c.toNat ≤ 122) ∨
    (48 ≤ c.toNat ∧ c.toNat ≤ 57) ∨ c.toNat = 304 ∨ c.toNat = 8490)

/-- The rendering `pickString`'s type switch applies to one value: a string is
returned as is (even empty), numbers and booleans are formatted, and `none`
marks the types the switch falls through on. -/
def renderJVal : JVal → Option String
  | .str t => some t
  | .num n => some (toString n)
  | .boolean b => some (if b then "true" else "false")
  | .other => none

/-- A record whose extracted `camera_id` does not trim to empty (the records
the rebuild loop actually inserts). -/
def hasId (c : RawRecord) : Bool := trimSpace (pickString c idKeys) != ""

/-- The extracted raw `camera_id` of a record. -/
def rid (c : RawRecord) : String := pickString c idKeys

/-- The records the rebuild loop inserts, in input order. -/
def goodRecs (cams : List RawRecord) : List RawRecord := cams.filter hasId

/-- The `cameras` table contents a successful rebuild commits. -/
def camerasOf (now : Int) (cams : List RawRecord) : List CameraRow :=
  (goodRecs cams).map (camRowOf now)

/-- The single `labels` row the rebuild loop inserts for a record, when the
looked-up label is non-blank. -/
def labRowOf (labels : List (String × String)) (now : Int) (c : RawRecord) :
    Option LabelRow :=
  if labelFor labels (rid c) = "" then none
  else some ⟨rid c, labelFor labels (rid c), now⟩

/-- The `labels` table contents a successful rebuild commits. -/
def labelsOf (labels : List (String × String)) (now : Int)
    (cams : List RawRecord) : List LabelRow :=
  (goodRecs cams).filterMap (labRowOf labels now)

/-- The `cameras_fts` table contents a successful rebuild commits. -/
def ftsOf (labels : List (String × String)) (now : Int)
    (cams : List RawRecord) : List FtsRow :=
  (goodRecs cams).map (fun c => ftsRowOfCam (labelFor labels (rid c)) (camRowOf now c))

/-- The consistency invariant between the shadow table, the camera table and
the label table: same `camera_id` sets, and each shadow row carries the label
of its `labels` row (empty when there is none). -/
def indexInvariant (s : Store) : Prop :=
  (∀ x : String, x ∈ s.fts.map (·.camera_id) ↔ x ∈ s.cameras.map (·.camera_id))
  ∧ ∀ r ∈ s.fts,
      r.label = ((s.labels.find? (fun l => l.camera_id == r.camera_id)).map (·.label)).getD ""

/-- The sanitized path components a build actually uses (after the `no-org`
and `default` fallbacks). -/
def resolvedComponents (host org profile : String) : String × String × String :=
  (sanitizePathComponent host,
   sanitizePathComponent (firstNonEmpty [org, "no-org"]),
   sanitizePathComponent (firstNonEmpty [profile, "default"]))

/-! ## Helper lemmas: characters and the tokenizer -/

theorem char_toNat_ofNat (n : Nat) (h : n < 55296) : (Char.ofNat n).toNat = n := by
  unfold Char.ofNat
  rw [dif_pos (Or.inl h)]
  rfl

theorem goToLowerChar_toNat (c : Char) (h : 65 ≤ c.toNat ∧ c.toNat ≤ 90) :
    (goToLowerChar c).toNat = c.toNat + 32 := by
  unfold goToLowerChar
  rw [if_pos h, char_toNat_ofNat _ (by omega)]

theorem goToLowerChar_idem (c : Char) : goToLowerChar (goToLowerChar c) = goToLowerChar c := by
  by_cases h : 65 ≤ c.toNat ∧ c.toNat ≤ 90
  · have h1 : goToLowerChar c = Char.ofNat (c.toNat + 32) := by
      unfold goToLowerChar
      rw [if_pos h]
    have ht : (Char.ofNat (c.toNat + 32)).toNat = c.toNat + 32 :=
      char_toNat_ofNat _ (by omega)
    rw [h1]
    unfold goToLowerChar
    rw [if_neg (by rw [ht]; omega), if_neg (by rw [ht]; omega), if_neg (by rw [ht]; omega)]
  · by_cases h2 : c.toNat = 304
    · have h1 : goToLowerChar c = 'i' := by
        unfold goToLowerChar
        rw [if_neg h, if_pos h2]
      rw [h1]
      decide
    · by_cases h3 : c.toNat = 8490
      · have h1 : goToLowerChar c = 'k' := by
          unfold goToLowerChar
          rw [if_neg h, if_neg h2, if_pos h3]
        rw [h1]
        decide
      · have h1 : goToLowerChar c = c := by
          unfold goToLowerChar
          rw [if_neg h, if_neg h2, if_neg h3]
        rw [h1, h1]

theorem tokMap_goToLowerChar (c : Char) : tokMap (goToLowerChar c) = tokMap c := by
  unfold tokMap
  rw [goToLowerChar_idem]

theorem isTokenChar_toNat (c : Char) :
    isTokenChar c = true ↔ ((97 ≤ c.toNat ∧ c.toNat ≤ 122) ∨ (48 ≤ c.toNat ∧ c.toNat ≤ 57)) := by
  simp [isTokenChar]

theorem tokMap_eq_space_or_token (c : Char) :
    tokMap c = ' ' ∨ isTokenChar (tokMap c) = true := by
  unfold tokMap
  by_cases h : isTokenChar (goToLowerChar c) = true
  · right
    rwa [if_pos h]
  · left
    rw [if_neg h]

theorem isTokenChar_not_space (c : Char) (h : isTokenChar c = true) : goIsSpace c = false := by
  rw [isTokenChar_toNat] at h
  simp only [goIsSpace, decide_eq_false_iff_not]
  omega

theorem goIsSpace_space : goIsSpace ' ' = true := by decide

theorem tokenizeQuery_eq_goFields (q : String) :
    tokenizeQuery q = goFields (q.data.map tokMap) := by
  simp only [tokenizeQuery, goToLower, goFields, String.mk, List.map_map]
  rfl

theorem goFieldsAux_ne_nil (cs : List Char) (acc : List Char) (h : acc ≠ []) :
    goFieldsAux cs acc ≠ [] := by
  induction cs generalizing acc with
  | nil =>
    simp only [goFieldsAux, List.isEmpty_eq_true]
    rw [if_neg h]
    simp
  | cons c rest ih =>
    simp only [goFieldsAux, List.isEmpty_eq_true]
    by_cases hs : goIsSpace c
    · rw [if_pos hs, if_neg h]
      simp
    · rw [if_neg hs]
      exact ih _ (by simp)

theorem goFieldsAux_tokens (cs : List Char) (acc : List Char)
    (hcs : ∀ c ∈ cs, isTokenChar c = true ∨ c = ' ')
    (hacc : ∀ c ∈ acc, isTokenChar c = true) :
    ∀ t ∈ goFieldsAux cs acc, t ≠ "" ∧ ∀ c ∈ t.data, isTokenChar c = true := by
  induction cs generalizing acc with
  | nil =>
    intro t ht
    simp only [goFieldsAux, List.isEmpty_eq_true] at ht
    by_cases h : acc = []
    · rw [if_pos h] at ht
      simp at ht
    · rw [if_neg h] at ht
      simp only [List.mem_singleton] at ht
      subst ht
      refine ⟨?_, ?_⟩
      · intro hbad
        have : acc.reverse = [] := congrArg String.data hbad
        simp at this
        exact h this
      · intro c hc
        exact hacc c (by simpa using hc)
  | cons c rest ih =>
    intro t ht
    simp only [goFieldsAux, List.isEmpty_eq_true] at ht
    have hrest : ∀ x ∈ rest, isTokenChar x = true ∨ x = ' ' := fun x hx => hcs x (by simp [hx])
    by_cases hs : goIsSpace c = true
    · rw [if_pos hs] at ht
      by_cases h : acc = []
      · rw [if_pos h] at ht
        exact ih [] hrest (by simp) t ht
      · rw [if_neg h] at ht
        rcases List.mem_cons.mp ht with rfl | ht'
        · refine ⟨?_, ?_⟩
          · intro hbad
            have : acc.reverse = [] := congrArg String.data hbad
            simp at this
            exact h this
          · intro x hx
            exact hacc x (by simpa using hx)
        · exact ih [] hrest (by simp) t ht'
    · rw [if_neg hs] at ht
      have hctok : isTokenChar c = true := by
        rcases hcs c (by simp) with h' | rfl
        · exact h'
        · exact absurd goIsSpace_space hs
      refine ih (c :: acc) hrest ?_ t ht
      intro x hx
      rcases List.mem_cons.mp hx with rfl | hx'
      · exact hctok
      · exact hacc x hx'

theorem goFieldsAux_eq_nil_iff (cs : List Char) :
    goFieldsAux cs [] = [] ↔ ∀ c ∈ cs, goIsSpace c = true := by
  induction cs with
  | nil => simp [goFieldsAux]
  | cons c rest ih =>
    simp only [goFieldsAux, List.isEmpty_nil, if_true, List.mem_cons]
    by_cases hs : goIsSpace c = true
    · rw [if_pos hs]
      rw [ih]
      constructor
      · intro h x hx
        rcases hx with rfl | hx'
        · exact hs
        · exact h x hx'
      · intro h x hx
        exact h x (Or.inr hx)
    · rw [if_neg hs]
      constructor
      · intro h
        exact absurd h (goFieldsAux_ne_nil rest [c] (by simp))
      · intro h
        exact absurd (h c (Or.inl rfl)) hs

theorem tokMap_of_sep (c : Char) (h : isSepInput c = true) : tokMap c = ' ' := by
  simp only [isSepInput, decide_eq_true_eq] at h
  simp only [tokMap]
  rw [if_neg (by simpa using h)]

theorem tokMap_of_not_sep (c : Char) (h : isSepInput c = false) :
    tokMap c = goToLowerChar c ∧ isTokenChar (tokMap c) = true := by
  have h' : isTokenChar (goToLowerChar c) = true := by
    simpa [isSepInput] using h
  constructor
  · unfold tokMap
    rw [if_pos h']
  · unfold tokMap
    rw [if_pos h']
    exact h'

theorem tokMap_space : tokMap ' ' = ' ' := by decide

theorem goFieldsAux_collapse (cs : List Char) (b : Bool) (acc : List Char)
    (hb : b = true → acc = []) :
    goFieldsAux ((collapseSepsAux cs b).map tokMap) acc =
      goFieldsAux (cs.map tokMap) acc := by
  induction cs generalizing b acc with
  | nil => simp [collapseSepsAux]
  | cons c rest ih =>
    by_cases hsep : isSepInput c = true
    · have hcm : tokMap c = ' ' := tokMap_of_sep c hsep
      cases b with
      | true =>
        have hacc : acc = [] := hb rfl
        subst hacc
        have hL : collapseSepsAux (c :: rest) true = collapseSepsAux rest true := by
          simp [collapseSepsAux, hsep]
        rw [hL, ih true [] (fun _ => rfl)]
        simp [goFieldsAux, hcm, goIsSpace_space]
      | false =>
        have hL : collapseSepsAux (c :: rest) false = ' ' :: collapseSepsAux rest true := by
          simp [collapseSepsAux, hsep]
        rw [hL]
        simp only [List.map_cons, tokMap_space, hcm]
        simp only [goFieldsAux, goIsSpace_space, if_true]
        by_cases h : acc.isEmpty
        · rw [if_pos h, if_pos h, ih true [] (fun _ => rfl)]
        · rw [if_neg h, if_neg h, ih true [] (fun _ => rfl)]
    · have hsep' : isSepInput c = false := Bool.eq_false_iff.mpr hsep
      have hcm := tokMap_of_not_sep c hsep'
      have hnspace : goIsSpace (tokMap c) = false := isTokenChar_not_space _ hcm.2
      have hL : collapseSepsAux (c :: rest) b = c :: collapseSepsAux rest false := by
        simp [collapseSepsAux, hsep']
      rw [hL]
      simp only [List.map_cons]
      simp only [goFieldsAux, hnspace, Bool.false_eq_true, if_false]
      exact ih false (tokMap c :: acc) (by simp)

theorem tokenizeQuery_tokens (q : String) :
    ∀ t ∈ tokenizeQuery q, t ≠ "" ∧ ∀ c ∈ t.data, isTokenChar c = true := by
  rw [tokenizeQuery_eq_goFields]
  refine goFieldsAux_tokens _ [] ?_ (by simp)
  intro c hc
  rcases List.mem_map.mp hc with ⟨x, _, rfl⟩
  rcases tokMap_eq_space_or_token x with h | h
  · right
    exact h
  · left
    exact h

theorem tokenizeQuery_lower (q : String) :
    tokenizeQuery q = tokenizeQuery (goToLower q) := by
  rw [tokenizeQuery_eq_goFields, tokenizeQuery_eq_goFields]
  simp only [goToLower, String.mk, List.map_map]
  congr 1
  apply List.map_congr_left
  intro c _
  exact (tokMap_goToLowerChar c).symm

theorem tokenizeQuery_collapse (q : String) :
    tokenizeQuery q = tokenizeQuery (collapseSeps q) := by
  rw [tokenizeQuery_eq_goFields, tokenizeQuery_eq_goFields]
  simp only [collapseSeps, String.mk]
  exact (goFieldsAux_collapse q.data false [] (by simp)).symm

theorem isTokenChar_goToLowerChar (c : Char) :
    isTokenChar (goToLowerChar c) = lowersToAlnum c := by
  by_cases h : 65 ≤ c.toNat ∧ c.toNat ≤ 90
  · have h1 : goToLowerChar c = Char.ofNat (c.toNat + 32) := by
      unfold goToLowerChar
      rw [if_pos h]
    have ht := char_toNat_ofNat (c.toNat + 32) (by omega)
    rw [h1]
    simp only [isTokenChar, lowersToAlnum]
    rw [ht, decide_eq_decide]
    constructor
    · intro
      omega
    · intro
      omega
  · by_cases h2 : c.toNat = 304
    · have h1 : goToLowerChar c = 'i' := by
        unfold goToLowerChar
        rw [if_neg h, if_pos h2]
      rw [h1]
      simp only [isTokenChar, lowersToAlnum, h2]
      decide
    · by_cases h3 : c.toNat = 8490
      · have h1 : goToLowerChar c = 'k' := by
          unfold goToLowerChar
          rw [if_neg h, if_neg h2, if_pos h3]
        rw [h1]
        simp only [isTokenChar, lowersToAlnum, h3]
        decide
      · have h1 : goToLowerChar c = c := by
          unfold goToLowerChar
          rw [if_neg h, if_neg h2, if_neg h3]
        rw [h1]
        simp only [isTokenChar, lowersToAlnum]
        rw [decide_eq_decide]
        constructor
        · intro
          omega
        · intro hor
          rcases hor with h' | h' | h' | h' | h'
          · exact absurd h' h
          · exact Or.inl h'
          · exact Or.inr h'
          · exact absurd h' h2
          · exact absurd h' h3

theorem goIsSpace_tokMap (c : Char) :
    goIsSpace (tokMap c) = true ↔ lowersToAlnum c = false := by
  unfold tokMap
  by_cases ht : isTokenChar (goToLowerChar c) = true
  · rw [if_pos ht, isTokenChar_not_space _ ht]
    rw [isTokenChar_goToLowerChar] at ht
    simp [ht]
  · rw [if_neg ht, goIsSpace_space]
    have : lowersToAlnum c = false := by
      rw [← isTokenChar_goToLowerChar]
      cases hx : isTokenChar (goToLowerChar c)
      · rfl
      · exact absurd hx ht
    simp [this]

theorem tokenizeQuery_eq_nil_iff (q : String) :
    tokenizeQuery q = [] ↔ ∀ c ∈ q.data, lowersToAlnum c = false := by
  rw [tokenizeQuery_eq_goFields]
  show goFieldsAux _ [] = [] ↔ _
  rw [goFieldsAux_eq_nil_iff]
  constructor
  · intro h c hc
    exact (goIsSpace_tokMap c).mp (h (tokMap c) (List.mem_map.mpr ⟨c, hc, rfl⟩))
  · intro h x hx
    rcases List.mem_map.mp hx with ⟨c, hc, rfl⟩
    exact (goIsSpace_tokMap c).mpr (h c hc)

theorem buildFTSQuery_of_nil (q : String) (h0 : tokenizeQuery q = []) :
    buildFTSQuery q = .error "query has no searchable tokens" := by
  unfold buildFTSQuery
  simp [h0]

theorem filter_ne_empty_eq_self (q : String) (l : List String)
    (hsub : ∀ t ∈ l, t ∈ tokenizeQuery q) :
    l.filter (fun t => t ≠ "") = l := by
  rw [List.filter_eq_self]
  intro t ht
  simpa using (tokenizeQuery_tokens q t (hsub t ht)).1

theorem buildFTSQuery_ok_of_ne_nil (q : String) (hne : tokenizeQuery q ≠ []) :
    ∃ s, buildFTSQuery q = .ok s := by
  simp only [buildFTSQuery]
  by_cases hk : ((tokenizeQuery q).filter (fun t => ¬ camerasSearchStopwords.contains t)).isEmpty
  · rw [if_pos hk, if_neg (by simpa [List.isEmpty_iff] using hne)]
    rw [filter_ne_empty_eq_self q _ (fun t ht => ht)]
    rw [if_neg (by simpa [List.isEmpty_iff, List.map_eq_nil_iff] using hne)]
    exact ⟨_, rfl⟩
  · rw [if_neg hk, if_neg hk]
    rw [filter_ne_empty_eq_self q _ (fun t ht => List.mem_of_mem_filter ht)]
    rw [if_neg (by simpa [List.isEmpty_iff, List.map_eq_nil_iff] using hk)]
    exact ⟨_, rfl⟩

/-! ## Claim theorems: tokenizer, query builder, field extraction -/

/-- C7: `tokenizeQuery` is invariant under lowercasing the input and under
replacing every run of non-alphanumeric characters by a single separator (in
particular `"Front-Door!"` and `"front door"` tokenize identically), and every
produced token is non-empty and consists only of ASCII lowercase letters and
digits. -/
theorem tokenizer_normalization (s : String) :
    tokenizeQuery s = tokenizeQuery (goToLower s) ∧
    tokenizeQuery s = tokenizeQuery (collapseSeps s) ∧
    tokenizeQuery "Front-Door!" = tokenizeQuery "front door" ∧
    ∀ t ∈ tokenizeQuery s, t ≠ "" ∧ ∀ c ∈ t.data, isTokenChar c = true :=
  ⟨tokenizeQuery_lower s, tokenizeQuery_collapse s, by decide, tokenizeQuery_tokens s⟩

/-- Witness for C7 at the concrete query `"Front-Door!"` and its first
token. -/
theorem tokenizer_normalization_witness :
    ("front" : String) ≠ "" ∧ ∀ c ∈ ("front" : String).data, isTokenChar c = true :=
  (tokenizer_normalization "Front-Door!").2.2.2 "front" (by decide)

/-- C6 counterexample: the two-rune query U+0130 `İ`, U+212A Kelvin sign
contains zero ASCII alphanumeric characters, yet Go's lowercasing maps those
runes to `i` and `k`, so tokenization yields `["ik"]` and `buildFTSQuery`
succeeds — "error iff no ASCII alphanumeric character" is false of the
program. -/
theorem buildFTSQuery_non_ascii_succeeds :
    (∀ c ∈ (String.mk [Char.ofNat 304, Char.ofNat 8490]).data, isAsciiAlnum c = false)
    ∧ tokenizeQuery (String.mk [Char.ofNat 304, Char.ofNat 8490]) = ["ik"]
    ∧ buildFTSQuery (String.mk [Char.ofNat 304, Char.ofNat 8490]) = .ok "ik*" :=
  ⟨by decide, by decide, by rfl⟩

/-- C6 amended: `buildFTSQuery` errors exactly when tokenization yields no
token, which happens exactly when no character of the query lowercases into
`[a-z0-9]` — the ASCII alphanumerics themselves, plus U+0130 (`İ`) and
U+212A (Kelvin sign), the only runes whose Unicode lowercase form is ASCII;
with at least one token a query string is produced and no error is
returned. -/
theorem buildFTSQuery_error_iff_amended (q : String) :
    ((buildFTSQuery q).isOk = true ↔ tokenizeQuery q ≠ []) ∧
    (tokenizeQuery q = [] ↔ ∀ c ∈ q.data, lowersToAlnum c = false) := by
  refine ⟨⟨?_, ?_⟩, tokenizeQuery_eq_nil_iff q⟩
  · intro hok h0
    rw [buildFTSQuery_of_nil q h0] at hok
    simp [Except.isOk, Except.toBool] at hok
  · intro hne
    rcases buildFTSQuery_ok_of_ne_nil q hne with ⟨s, hs⟩
    rw [hs]
    rfl

/-- Witness for C6 amended at the concrete queries `"Door"` and `"!!!"`. -/
theorem buildFTSQuery_error_iff_amended_witness :
    ((buildFTSQuery "Door").isOk = true ↔ tokenizeQuery "Door" ≠ []) ∧
    ((buildFTSQuery "!!!").isOk = true ↔ tokenizeQuery "!!!" ≠ []) :=
  ⟨(buildFTSQuery_error_iff_amended "Door").1, (buildFTSQuery_error_iff_amended "!!!").1⟩

/-- C5: when tokenization is non-empty but every token is a stopword,
`buildFTSQuery` succeeds and builds its terms from the full unfiltered token
list. -/
theorem stopword_fallback (q : String)
    (hne : tokenizeQuery q ≠ [])
    (hstop : ∀ t ∈ tokenizeQuery q, t ∈ camerasSearchStopwords) :
    buildFTSQuery q =
      .ok (String.intercalate " AND " ((tokenizeQuery q).map (fun t => t ++ "*"))) := by
  simp only [buildFTSQuery]
  have hk : (tokenizeQuery q).filter (fun t => ¬ camerasSearchStopwords.contains t) = [] := by
    rw [List.filter_eq_nil_iff]
    intro t ht
    simpa using hstop t ht
  rw [hk]
  rw [if_pos List.isEmpty_nil, if_neg (by simpa [List.isEmpty_iff] using hne)]
  rw [filter_ne_empty_eq_self q _ (fun t ht => ht)]
  rw [if_neg (by simpa [List.isEmpty_iff, List.map_eq_nil_iff] using hne)]

/-- Witness for C5 at the all-stopword query `"The of"`. -/
theorem stopword_fallback_witness :
    buildFTSQuery "The of" =
      .ok (String.intercalate " AND " ((tokenizeQuery "The of").map (fun t => t ++ "*"))) :=
  stopword_fallback "The of" (by decide) (by decide)

/-- C4 counterexample: the first candidate key `"name"` is present with the
empty string, so `pickString` returns `""` and never reaches the non-empty
value `"foo"` stored under the second candidate key — extraction does not
return the first non-empty value. -/
theorem pickString_empty_stops_fallback :
    pickString [("name", JVal.str ""), ("device_name", JVal.str "foo")] ["name", "device_name"] = ""
    ∧ pickString [("name", JVal.str ""), ("device_name", JVal.str "foo")] ["device_name"] = "foo"
    ∧ ("" : String) ≠ "foo" :=
  ⟨rfl, rfl, by decide⟩

/-- C4 amended: `pickString` tries the candidate keys in order and returns the
rendering of the first key that is present with a renderable value (string,
number or boolean), even when that rendering is the empty string; only absent
keys and non-renderable values let the fallback proceed. -/
theorem pickString_first_rendered_key_wins (m : RawRecord) (keys : List String) :
    pickString m keys =
      ((keys.filterMap (fun k => (m.lookup k).bind renderJVal)).head?).getD "" := by
  induction keys with
  | nil => rfl
  | cons k rest ih =>
    simp only [List.filterMap_cons]
    cases hl : m.lookup k with
    | none => simpa [pickString, hl] using ih
    | some v =>
      cases v with
      | str t => simp [pickString, hl, renderJVal]
      | num n => simp [pickString, hl, renderJVal]
      | boolean b => simp [pickString, hl, renderJVal]
      | other => simpa [pickString, hl, renderJVal] using ih

/-! ## Helper lemmas: path resolution -/

theorem mem_of_mem_trimEnds (p : Char → Bool) (c : Char) (l : List Char)
    (hc : c ∈ ((l.dropWhile p).reverse.dropWhile p).reverse) : c ∈ l := by
  rw [List.mem_reverse] at hc
  have hc2 : c ∈ (l.dropWhile p).reverse := (List.dropWhile_sublist p).mem hc
  rw [List.mem_reverse] at hc2
  exact (List.dropWhile_sublist p).mem hc2

theorem sanitizePathComponent_ne_empty (s : String) : sanitizePathComponent s ≠ "" := by
  simp only [sanitizePathComponent]
  split
  · decide
  · split
    · decide
    · next h2 =>
      intro hbad
      exact h2 (congrArg String.data hbad)

theorem sanitizePathComponent_chars (s : String) :
    ∀ c ∈ (sanitizePathComponent s).data,
      (97 ≤ c.toNat ∧ c.toNat ≤ 122) ∨ (48 ≤ c.toNat ∧ c.toNat ≤ 57) ∨
        c = '.' ∨ c = '-' ∨ c = '_' := by
  simp only [sanitizePathComponent]
  split
  · decide
  · split
    · decide
    · intro c hc
      have hc1 : c ∈ (goToLower (trimSpace s)).data.map (fun r =>
          if (97 ≤ r.toNat ∧ r.toNat ≤ 122) ∨ (48 ≤ r.toNat ∧ r.toNat ≤ 57) ∨
            r = '.' ∨ r = '-' ∨ r = '_' then r else '_') :=
        mem_of_mem_trimEnds _ c _ hc
      rcases List.mem_map.mp hc1 with ⟨x, _, rfl⟩
      by_cases hx : (97 ≤ x.toNat ∧ x.toNat ≤ 122) ∨ (48 ≤ x.toNat ∧ x.toNat ≤ 57) ∨
          x = '.' ∨ x = '-' ∨ x = '_'
      · rw [if_pos hx]
        exact hx
      · rw [if_neg hx]
        right
        right
        right
        right
        rfl

theorem foldl_cleanStep_no_special (ys : List String)
    (hys : ∀ s ∈ ys, s ≠ "" ∧ s ≠ "." ∧ s ≠ "..") :
    ∀ acc : List String,
      ys.foldl
        (fun acc seg =>
          if seg = "" ∨ seg = "." then acc
          else if seg = ".." then acc.dropLast
          else acc ++ [seg]) acc = acc ++ ys := by
  induction ys with
  | nil => simp
  | cons y ys ih =>
    intro acc
    have hy := hys y (by simp)
    simp only [List.foldl_cons]
    rw [if_neg (by simp [hy.1, hy.2.1]), if_neg hy.2.2]
    rw [ih (fun s hs => hys s (by simp [hs]))]
    simp

theorem cleanSegs_append (xs ys : List String)
    (hys : ∀ s ∈ ys, s ≠ "" ∧ s ≠ "." ∧ s ≠ "..") :
    cleanSegs (xs ++ ys) = cleanSegs xs ++ ys := by
  unfold cleanSegs
  rw [List.foldl_append]
  exact foldl_cleanStep_no_special ys hys _

/-! ## Claim theorems: path resolution -/

/-- C3 counterexample: the raw triples `("A","o","p")` and `("a","o","p")`
are distinct, yet `camerasIndexPath` resolves both to the same file path
(sanitization lowercases, so it is not injective on raw components). -/
theorem camerasIndexPath_not_injective :
    (("A", "o", "p") ≠ (("a", "o", "p") : String × String × String))
    ∧ camerasIndexPath ["home", "u", ".cache"] "A" "o" "p" =
        camerasIndexPath ["home", "u", ".cache"] "a" "o" "p" := by
  constructor
  · decide
  · rfl

/-- C3 amended: each component is sanitized to a non-empty string of
characters from `[a-z0-9._-]` (with `"unknown"` as the empty placeholder), and
the path derivation is injective on the *sanitized* triples as long as no
sanitized component is `"."` or `".."` (path cleaning makes those collide);
distinct raw triples may still collide because sanitization is many-to-one. -/
theorem camerasIndexPath_injective_on_sanitized :
    (∀ s : String,
      sanitizePathComponent s ≠ "" ∧ sanitizePathComponent "" = "unknown" ∧
      ∀ c ∈ (sanitizePathComponent s).data,
        (97 ≤ c.toNat ∧ c.toNat ≤ 122) ∨ (48 ≤ c.toNat ∧ c.toNat ≤ 57) ∨
          c = '.' ∨ c = '-' ∨ c = '_')
    ∧ ∀ (cacheSegs : List String) (h1 o1 p1 h2 o2 p2 : String),
      (∀ x ∈ [(resolvedComponents h1 o1 p1).1, (resolvedComponents h1 o1 p1).2.1,
              (resolvedComponents h1 o1 p1).2.2, (resolvedComponents h2 o2 p2).1,
              (resolvedComponents h2 o2 p2).2.1, (resolvedComponents h2 o2 p2).2.2],
        x ≠ "." ∧ x ≠ "..") →
      resolvedComponents h1 o1 p1 ≠ resolvedComponents h2 o2 p2 →
      camerasIndexPath cacheSegs h1 o1 p1 ≠ camerasIndexPath cacheSegs h2 o2 p2 := by
  constructor
  · intro s
    exact ⟨sanitizePathComponent_ne_empty s, rfl, sanitizePathComponent_chars s⟩
  · intro cacheSegs h1 o1 p1 h2 o2 p2 hgood hne heq
    have hys1 : ∀ x ∈ ["verkcli", "index", sanitizePathComponent h1,
        sanitizePathComponent (firstNonEmpty [o1, "no-org"]),
        sanitizePathComponent (firstNonEmpty [p1, "default"]), "cameras.sqlite"],
        x ≠ "" ∧ x ≠ "." ∧ x ≠ ".." := by
      intro x hx
      simp only [List.mem_cons, List.not_mem_nil, or_false] at hx
      rcases hx with rfl | rfl | rfl | rfl | rfl | rfl
      · exact ⟨by decide, by decide, by decide⟩
      · exact ⟨by decide, by decide, by decide⟩
      · exact ⟨sanitizePathComponent_ne_empty _,
          hgood _ (by simp [resolvedComponents])⟩
      · exact ⟨sanitizePathComponent_ne_empty _,
          hgood _ (by simp [resolvedComponents])⟩
      · exact ⟨sanitizePathComponent_ne_empty _,
          hgood _ (by simp [resolvedComponents])⟩
      · exact ⟨by decide, by decide, by decide⟩
    have hys2 : ∀ x ∈ ["verkcli", "index", sanitizePathComponent h2,
        sanitizePathComponent (firstNonEmpty [o2, "no-org"]),
        sanitizePathComponent (firstNonEmpty [p2, "default"]), "cameras.sqlite"],
        x ≠ "" ∧ x ≠ "." ∧ x ≠ ".." := by
      intro x hx
      simp only [List.mem_cons, List.not_mem_nil, or_false] at hx
      rcases hx with rfl | rfl | rfl | rfl | rfl | rfl
      · exact ⟨by decide, by decide, by decide⟩
      · exact ⟨by decide, by decide, by decide⟩
      · exact ⟨sanitizePathComponent_ne_empty _,
          hgood _ (by simp [resolvedComponents])⟩
      · exact ⟨sanitizePathComponent_ne_empty _,
          hgood _ (by simp [resolvedComponents])⟩
      · exact ⟨sanitizePathComponent_ne_empty _,
          hgood _ (by simp [resolvedComponents])⟩
      · exact ⟨by decide, by decide, by decide⟩
    have e1 : camerasIndexPath cacheSegs h1 o1 p1 = cleanSegs cacheSegs ++
        ["verkcli", "index", sanitizePathComponent h1,
         sanitizePathComponent (firstNonEmpty [o1, "no-org"]),
         sanitizePathComponent (firstNonEmpty [p1, "default"]), "cameras.sqlite"] := by
      simp only [camerasIndexPath]
      exact cleanSegs_append _ _ hys1
    have e2 : camerasIndexPath cacheSegs h2 o2 p2 = cleanSegs cacheSegs ++
        ["verkcli", "index", sanitizePathComponent h2,
         sanitizePathComponent (firstNonEmpty [o2, "no-org"]),
         sanitizePathComponent (firstNonEmpty [p2, "default"]), "cameras.sqlite"] := by
      simp only [camerasIndexPath]
      exact cleanSegs_append _ _ hys2
    rw [e1, e2] at heq
    have hcomp := List.append_cancel_left heq
    simp only [List.cons.injEq, and_true] at hcomp
    refine hne ?_
    simp only [resolvedComponents]
    rw [hcomp.2.2.1, hcomp.2.2.2.1, hcomp.2.2.2.2]

/-- Witness for C3 amended: two hosts that stay distinct after sanitization
resolve to different paths. -/
theorem camerasIndexPath_injective_on_sanitized_witness :
    camerasIndexPath ["home", "u", ".cache"] "a.com" "o" "p" ≠
      camerasIndexPath ["home", "u", ".cache"] "b.com" "o" "p" :=
  camerasIndexPath_injective_on_sanitized.2 ["home", "u", ".cache"]
    "a.com" "o" "p" "b.com" "o" "p" (by decide) (by decide)


theorem insertRecords_nil (labels : List (String × String)) (now : Int) (t : Store) :
    insertRecords labels now t [] = .ok t := rfl

theorem goodRecs_cons_pos (c : RawRecord) (rest : List RawRecord)
    (h : ¬ trimSpace (pickString c idKeys) = "") :
    goodRecs (c :: rest) = c :: goodRecs rest := by
  simp [goodRecs, List.filter_cons, hasId, bne_iff_ne, h]

theorem goodRecs_cons_neg (c : RawRecord) (rest : List RawRecord)
    (h : trimSpace (pickString c idKeys) = "") :
    goodRecs (c :: rest) = goodRecs rest := by
  simp [goodRecs, List.filter_cons, hasId, bne_iff_ne, h]

theorem insertRecords_ok_char (labels : List (String × String)) (now : Int) :
    ∀ (cams : List RawRecord) (t t' : Store),
      insertRecords labels now t cams = .ok t' →
      t'.fileExists = t.fileExists ∧ t'.meta = t.meta ∧
      t'.cameras = t.cameras ++ camerasOf now cams ∧
      t'.labels = t.labels ++ labelsOf labels now cams ∧
      t'.fts = t.fts ++ ftsOf labels now cams := by
  intro cams
  induction cams with
  | nil =>
    intro t t' h
    rw [insertRecords_nil] at h
    cases h
    simp [camerasOf, labelsOf, ftsOf, goodRecs]
  | cons c rest ih =>
    intro t t' h
    simp only [insertRecords] at h
    by_cases h0 : trimSpace (pickString c idKeys) = ""
    · rw [if_pos h0] at h
      have hr := ih t t' h
      rw [camerasOf, labelsOf, ftsOf, goodRecs_cons_neg c rest h0]
      exact ⟨hr.1, hr.2.1, hr.2.2.1, hr.2.2.2.1, hr.2.2.2.2⟩
    · rw [if_neg h0] at h
      by_cases h1 : t.cameras.any (fun r => r.camera_id == pickString c idKeys)
      · rw [if_pos h1] at h
        cases h
      · rw [if_neg h1] at h
        by_cases h2 : labelFor labels (pickString c idKeys) = ""
        · rw [if_pos h2] at h
          have hr := ih _ t' h
          simp only at hr
          rw [camerasOf, labelsOf, ftsOf, goodRecs_cons_pos c rest h0]
          refine ⟨hr.1, hr.2.1, ?_, ?_, ?_⟩
          · rw [hr.2.2.1]
            simp [camerasOf]
          · rw [hr.2.2.2.1]
            simp [labelsOf, labRowOf, rid, h2]
          · rw [hr.2.2.2.2]
            simp [ftsOf, rid, h2]
        · rw [if_neg h2] at h
          by_cases h3 : t.labels.any (fun r => r.camera_id == pickString c idKeys)
          · rw [if_pos h3] at h
            cases h
          · rw [if_neg h3] at h
            have hr := ih _ t' h
            simp only at hr
            rw [camerasOf, labelsOf, ftsOf, goodRecs_cons_pos c rest h0]
            refine ⟨hr.1, hr.2.1, ?_, ?_, ?_⟩
            · rw [hr.2.2.1]
              simp [camerasOf]
            · rw [hr.2.2.2.1]
              simp [labelsOf, labRowOf, rid, h2]
            · rw [hr.2.2.2.2]
              simp [ftsOf, rid]


theorem insertRecords_ok_nodup (labels : List (String × String)) (now : Int) :
    ∀ (cams : List RawRecord) (t t' : Store),
      insertRecords labels now t cams = .ok t' →
      (((camerasOf now cams).map (fun r => r.camera_id)).Nodup ∧
       ∀ x ∈ (camerasOf now cams).map (fun r => r.camera_id),
         x ∉ t.cameras.map (fun r => r.camera_id)) := by
  intro cams
  induction cams with
  | nil =>
    intro t t' _
    simp [camerasOf, goodRecs]
  | cons c rest ih =>
    intro t t' h
    simp only [insertRecords] at h
    by_cases h0 : trimSpace (pickString c idKeys) = ""
    · rw [if_pos h0] at h
      rw [camerasOf, goodRecs_cons_neg c rest h0]
      exact ih t t' h
    · rw [if_neg h0] at h
      by_cases h1 : t.cameras.any (fun r => r.camera_id == pickString c idKeys)
      · rw [if_pos h1] at h
        cases h
      · rw [if_neg h1] at h
        have hid : ∀ x ∈ t.cameras.map (fun r => r.camera_id),
            x ≠ pickString c idKeys := by
          intro x hx hxe
          rcases List.mem_map.mp hx with ⟨r, hr, rfl⟩
          have : t.cameras.any (fun r => r.camera_id == pickString c idKeys) := by
            rw [List.any_eq_true]
            exact ⟨r, hr, by simp [hxe]⟩
          exact h1 this
        have key : ∀ (tnext : Store),
            tnext.cameras = t.cameras ++ [camRowOf now c] →
            insertRecords labels now tnext rest = .ok t' →
            (((camerasOf now (c :: rest)).map (fun r => r.camera_id)).Nodup ∧
             ∀ x ∈ (camerasOf now (c :: rest)).map (fun r => r.camera_id),
               x ∉ t.cameras.map (fun r => r.camera_id)) := by
          intro tnext hcam hrec
          have hr := ih tnext t' hrec
          rw [hcam] at hr
          rw [camerasOf, goodRecs_cons_pos c rest h0]
          simp only [List.map_cons, List.map_append, List.mem_append] at hr ⊢
          constructor
          · rw [List.nodup_cons]
            constructor
            · intro hmem
              have := hr.2 _ hmem
              simp [camRowOf, List.mem_map] at this
            · exact hr.1
          · intro x hx
            rcases List.mem_cons.mp hx with rfl | hx'
            · show ¬ _
              intro hmem
              exact hid _ hmem rfl
            · intro hmem
              exact (hr.2 x hx') (Or.inl hmem)
        by_cases h2 : labelFor labels (pickString c idKeys) = ""
        · rw [if_pos h2] at h
          exact key _ rfl h
        · rw [if_neg h2] at h
          by_cases h3 : t.labels.any (fun r => r.camera_id == pickString c idKeys)
          · rw [if_pos h3] at h
            cases h
          · rw [if_neg h3] at h
            exact key _ rfl h

theorem insertRecords_error_eq (labels : List (String × String)) (now : Int) :
    ∀ (cams : List RawRecord) (t : Store) (e : BuildError),
      insertRecords labels now t cams = .error e → e = .insertConflict := by
  intro cams
  induction cams with
  | nil =>
    intro t e h
    cases h
  | cons c rest ih =>
    intro t e h
    simp only [insertRecords] at h
    by_cases h0 : trimSpace (pickString c idKeys) = ""
    · rw [if_pos h0] at h
      exact ih t e h
    · rw [if_neg h0] at h
      by_cases h1 : t.cameras.any (fun r => r.camera_id == pickString c idKeys)
      · rw [if_pos h1] at h
        cases h
        rfl
      · rw [if_neg h1] at h
        by_cases h2 : labelFor labels (pickString c idKeys) = ""
        · rw [if_pos h2] at h
          exact ih _ e h
        · rw [if_neg h2] at h
          by_cases h3 : t.labels.any (fun r => r.camera_id == pickString c idKeys)
          · rw [if_pos h3] at h
            cases h
            rfl
          · rw [if_neg h3] at h
            exact ih _ e h

theorem insertRecords_filter (labels : List (String × String)) (now : Int) :
    ∀ (cams : List RawRecord) (t : Store),
      insertRecords labels now t (cams.filter hasId) = insertRecords labels now t cams := by
  intro cams
  induction cams with
  | nil =>
    intro t
    rfl
  | cons c rest ih =>
    intro t
    by_cases h0 : trimSpace (pickString c idKeys) = ""
    · rw [List.filter_cons_of_neg (by simp [hasId, bne_iff_ne, h0])]
      rw [ih t]
      conv_rhs => rw [insertRecords]
      rw [if_pos h0]
    · rw [List.filter_cons_of_pos (by simp [hasId, bne_iff_ne, h0])]
      conv_lhs => rw [insertRecords]
      conv_rhs => rw [insertRecords]
      rw [if_neg h0, if_neg h0]
      by_cases h1 : t.cameras.any (fun r => r.camera_id == pickString c idKeys)
      · rw [if_pos h1, if_pos h1]
      · rw [if_neg h1, if_neg h1]
        by_cases h2 : labelFor labels (pickString c idKeys) = ""
        · rw [if_pos h2, if_pos h2]
          exact ih _
        · rw [if_neg h2, if_neg h2]
          by_cases h3 : t.labels.any (fun r => r.camera_id == pickString c idKeys)
          · rw [if_pos h3, if_pos h3]
          · rw [if_neg h3, if_neg h3]
            exact ih _


theorem lookup_map_self (m : List (String × String)) (k v : String)
    (hany : m.any (fun p => p.1 == k) = true) :
    (m.map (fun p => if p.1 == k then (k, v) else p)).lookup k = some v := by
  induction m with
  | nil => simp at hany
  | cons p t ih =>
    rw [List.map_cons]
    by_cases hpk : p.1 = k
    · have h1 : (p.1 == k) = true := by simp [hpk]
      rw [if_pos h1]
      simp [List.lookup]
    · have h1 : (p.1 == k) = false := by simp [hpk]
      have h2 : (k == p.1) = false := by simp [Ne.symm hpk]
      rw [if_neg (by simp [h1])]
      simp only [List.lookup, h2]
      refine ih ?_
      simp only [List.any_cons, h1, Bool.false_or] at hany
      exact hany

theorem lookup_append_single (m : List (String × String)) (k v k' : String)
    (h : k' ≠ k) : (m ++ [(k, v)]).lookup k' = m.lookup k' := by
  induction m with
  | nil =>
    have h2 : (k' == k) = false := by simp [h]
    simp [List.lookup, h2]
  | cons p t ih =>
    by_cases hk'p : k' = p.1
    · have h1 : (k' == p.1) = true := by simp [hk'p]
      simp [List.lookup, h1]
    · have h1 : (k' == p.1) = false := by simp [hk'p]
      simp only [List.cons_append, List.lookup, h1]
      exact ih

theorem lookup_append_self (m : List (String × String)) (k v : String)
    (hnotin : m.any (fun p => p.1 == k) = false) :
    (m ++ [(k, v)]).lookup k = some v := by
  induction m with
  | nil => simp [List.lookup]
  | cons p t ih =>
    simp only [List.any_cons, Bool.or_eq_false_iff] at hnotin
    have h1 : (k == p.1) = false := by
      have h' := hnotin.1
      simp only [beq_eq_false_iff_ne, ne_eq] at h' ⊢
      exact fun he => h' he.symm
    simp only [List.cons_append, List.lookup, h1]
    exact ih hnotin.2

theorem lookup_map_preserve (m : List (String × String)) (k v k' : String)
    (h : k' ≠ k) :
    (m.map (fun p => if p.1 == k then (k, v) else p)).lookup k' = m.lookup k' := by
  induction m with
  | nil => rfl
  | cons p t ih =>
    rw [List.map_cons]
    by_cases hpk : p.1 = k
    · have h1 : (p.1 == k) = true := by simp [hpk]
      have h2 : (k' == k) = false := by simp [h]
      have h3 : (k' == p.1) = false := by simp [hpk, h]
      rw [if_pos h1]
      simp only [List.lookup, h2, h3]
      exact ih
    · have h1 : (p.1 == k) = false := by simp [hpk]
      rw [if_neg (by simp [h1])]
      by_cases hk'p : k' = p.1
      · have h2 : (k' == p.1) = true := by simp [hk'p]
        simp [List.lookup, h2]
      · have h2 : (k' == p.1) = false := by simp [hk'p]
        simp only [List.lookup, h2]
        exact ih

theorem metaUpsert_lookup_self (m : List (String × String)) (k v : String) :
    (metaUpsert m k v).lookup k = some v := by
  unfold metaUpsert
  by_cases hany : m.any (fun p => p.1 == k)
  · rw [if_pos hany]
    exact lookup_map_self m k v hany
  · rw [if_neg hany]
    exact lookup_append_self m k v (Bool.eq_false_iff.mpr hany)

theorem metaUpsert_lookup_other (m : List (String × String)) (k v k' : String)
    (h : k' ≠ k) : (metaUpsert m k v).lookup k' = m.lookup k' := by
  unfold metaUpsert
  by_cases hany : m.any (fun p => p.1 == k)
  · rw [if_pos hany]
    exact lookup_map_preserve m k v k' h
  · rw [if_neg hany]
    exact lookup_append_single m k v k' h


theorem rebuild_true_eq (s : Store) (prov : Provenance) (cams : List RawRecord)
    (labels : List (String × String)) (now : Int) :
    rebuildCamerasIndex true s prov cams labels now =
      match insertRecords labels now
        { fileExists := true, cameras := [], labels := [], fts := [],
          meta := metaUpsert (metaUpsert (metaUpsert (metaUpsert (metaUpsert s.meta
            "schema_version" (toString camerasIndexSchemaVersion))
            "built_at" (toString now)) "base_url" prov.baseURL)
            "org_id" prov.orgID) "profile" prov.profile } cams with
      | .ok t => (t, none)
      | .error e => ({ s with fileExists := true }, some e) := rfl

theorem rebuild_false_eq (s : Store) (prov : Provenance) (cams : List RawRecord)
    (labels : List (String × String)) (now : Int) :
    rebuildCamerasIndex false s prov cams labels now = (s, some .mkdirFailed) := rfl

theorem dup_ids_not_nodup (now : Int) (as bs cs : List RawRecord) (c1 c2 : RawRecord)
    (heq : rid c1 = rid c2) (h1 : trimSpace (rid c1) ≠ "") :
    ¬ (((camerasOf now (as ++ c1 :: bs ++ c2 :: cs)).map (fun r => r.camera_id)).Nodup) := by
  intro hnd
  have h2 : trimSpace (rid c2) ≠ "" := by
    rw [← heq]
    exact h1
  have hg : goodRecs (as ++ c1 :: bs ++ c2 :: cs)
      = goodRecs as ++ c1 :: (goodRecs bs ++ c2 :: goodRecs cs) := by
    simp [goodRecs, List.filter_append, List.filter_cons, hasId, bne_iff_ne, rid] at *
    simp [goodRecs, List.filter_append, List.filter_cons, hasId, bne_iff_ne,
      show trimSpace (pickString c1 idKeys) ≠ "" from h1,
      show trimSpace (pickString c2 idKeys) ≠ "" from h2]
  rw [camerasOf, hg] at hnd
  simp only [List.map_append, List.map_cons] at hnd
  have e1 : (camRowOf now c1).camera_id = rid c1 := rfl
  have e2 : (camRowOf now c2).camera_id = rid c1 := heq.symm
  rw [e1, e2] at hnd
  rw [List.nodup_iff_count_le_one] at hnd
  have hcount := hnd (rid c1)
  simp only [List.count_append, List.count_cons_self] at hcount
  omega

/-! ## Claim theorems: the rebuild transaction -/

/-- C1: the rebuild either commits a state whose four tables reflect the new
input, or returns an error leaving every table's contents unaltered; a
directory-creation failure aborts before any database operation (the whole
store, file flag included, is untouched), and any per-row insert error rolls
the transaction back. -/
theorem rebuild_all_or_nothing (mkdirOk : Bool) (s : Store) (prov : Provenance)
    (cams : List RawRecord) (labels : List (String × String)) (now : Int) :
    (mkdirOk = false →
      rebuildCamerasIndex mkdirOk s prov cams labels now = (s, some .mkdirFailed))
    ∧ (∀ e, (rebuildCamerasIndex mkdirOk s prov cams labels now).2 = some e →
        (rebuildCamerasIndex mkdirOk s prov cams labels now).1.cameras = s.cameras ∧
        (rebuildCamerasIndex mkdirOk s prov cams labels now).1.labels = s.labels ∧
        (rebuildCamerasIndex mkdirOk s prov cams labels now).1.fts = s.fts ∧
        (rebuildCamerasIndex mkdirOk s prov cams labels now).1.meta = s.meta)
    ∧ ((rebuildCamerasIndex mkdirOk s prov cams labels now).2 = none →
        (rebuildCamerasIndex mkdirOk s prov cams labels now).1.cameras = camerasOf now cams ∧
        (rebuildCamerasIndex mkdirOk s prov cams labels now).1.labels = labelsOf labels now cams ∧
        (rebuildCamerasIndex mkdirOk s prov cams labels now).1.fts = ftsOf labels now cams ∧
        (rebuildCamerasIndex mkdirOk s prov cams labels now).1.meta.lookup "schema_version"
          = some (toString camerasIndexSchemaVersion) ∧
        (rebuildCamerasIndex mkdirOk s prov cams labels now).1.meta.lookup "built_at"
          = some (toString now) ∧
        (rebuildCamerasIndex mkdirOk s prov cams labels now).1.meta.lookup "base_url"
          = some prov.baseURL ∧
        (rebuildCamerasIndex mkdirOk s prov cams labels now).1.meta.lookup "org_id"
          = some prov.orgID ∧
        (rebuildCamerasIndex mkdirOk s prov cams labels now).1.meta.lookup "profile"
          = some prov.profile) := by
  cases mkdirOk with
  | false =>
    refine ⟨fun _ => rebuild_false_eq s prov cams labels now, ?_, ?_⟩
    · intro e _
      rw [rebuild_false_eq]
      exact ⟨rfl, rfl, rfl, rfl⟩
    · intro hnone
      rw [rebuild_false_eq] at hnone
      exact Option.noConfusion hnone
  | true =>
    rw [rebuild_true_eq]
    split
    · next t hres =>
      refine ⟨fun h => absurd h (by simp), ?_, ?_⟩
      · intro e he
        exact Option.noConfusion he
      · intro _
        have hr := insertRecords_ok_char labels now cams _ t hres
        simp only [List.nil_append] at hr
        refine ⟨hr.2.2.1, hr.2.2.2.1, hr.2.2.2.2, ?_, ?_, ?_, ?_, ?_⟩
        · rw [hr.2.1]
          rw [metaUpsert_lookup_other _ _ _ _ (by decide),
            metaUpsert_lookup_other _ _ _ _ (by decide),
            metaUpsert_lookup_other _ _ _ _ (by decide),
            metaUpsert_lookup_other _ _ _ _ (by decide),
            metaUpsert_lookup_self]
        · rw [hr.2.1]
          rw [metaUpsert_lookup_other _ _ _ _ (by decide),
            metaUpsert_lookup_other _ _ _ _ (by decide),
            metaUpsert_lookup_other _ _ _ _ (by decide),
            metaUpsert_lookup_self]
        · rw [hr.2.1]
          rw [metaUpsert_lookup_other _ _ _ _ (by decide),
            metaUpsert_lookup_other _ _ _ _ (by decide),
            metaUpsert_lookup_self]
        · rw [hr.2.1]
          rw [metaUpsert_lookup_other _ _ _ _ (by decide),
            metaUpsert_lookup_self]
        · rw [hr.2.1]
          rw [metaUpsert_lookup_self]
    · next e hres =>
      refine ⟨fun h => absurd h (by simp), ?_, ?_⟩
      · intro e' _
        exact ⟨rfl, rfl, rfl, rfl⟩
      · intro hnone
        exact Option.noConfusion hnone

/-- Witness for C1: a failing directory creation returns the store unchanged
with the mkdir error. -/
theorem rebuild_all_or_nothing_witness :
    rebuildCamerasIndex false ⟨false, [], [], [], []⟩ ⟨"b", "o", "p"⟩ [] [] 0 =
      (⟨false, [], [], [], []⟩, some .mkdirFailed) :=
  (rebuild_all_or_nothing false ⟨false, [], [], [], []⟩ ⟨"b", "o", "p"⟩ [] [] 0).1 rfl

/-- C9: records whose extracted `camera_id` trims to empty are skipped without
failing the build — the rebuild outcome on any record list equals the outcome
on the sublist of records with a usable id — and on success the `cameras`
table holds exactly the rows of the records with a usable id. -/
theorem rebuild_skips_empty_ids (mkdirOk : Bool) (s : Store) (prov : Provenance)
    (cams : List RawRecord) (labels : List (String × String)) (now : Int) :
    rebuildCamerasIndex mkdirOk s prov cams labels now
      = rebuildCamerasIndex mkdirOk s prov (cams.filter hasId) labels now
    ∧ ((rebuildCamerasIndex mkdirOk s prov cams labels now).2 = none →
        (rebuildCamerasIndex mkdirOk s prov cams labels now).1.cameras
          = (cams.filter hasId).map (camRowOf now)) := by
  cases mkdirOk with
  | false =>
    refine ⟨rfl, ?_⟩
    intro hnone
    rw [rebuild_false_eq] at hnone
    exact Option.noConfusion hnone
  | true =>
    constructor
    · rw [rebuild_true_eq, rebuild_true_eq, insertRecords_filter labels now cams]
    · rw [rebuild_true_eq]
      split
      · next t hres =>
        intro _
        have hr := insertRecords_ok_char labels now cams _ t hres
        simp only [List.nil_append] at hr
        exact hr.2.2.1
      · next e hres =>
        intro hnone
        exact Option.noConfusion hnone

/-- Witness for C9: a build over one good and one id-less record succeeds and
indexes only the good record. -/
theorem rebuild_skips_empty_ids_witness :
    (rebuildCamerasIndex true ⟨false, [], [], [], []⟩ ⟨"b", "o", "p"⟩
        [[("camera_id", JVal.str "cam-1")], [("note", JVal.str "x")]] [] 0).1.cameras
      = ([[("camera_id", JVal.str "cam-1")], [("note", JVal.str "x")]].filter hasId).map
          (camRowOf 0) :=
  (rebuild_skips_empty_ids true ⟨false, [], [], [], []⟩ ⟨"b", "o", "p"⟩
    [[("camera_id", JVal.str "cam-1")], [("note", JVal.str "x")]] [] 0).2 (by decide)

/-- C10: two input records resolving to the same non-empty raw `camera_id`
make the rebuild fail with the primary-key insert conflict, rolling the
transaction back (the returned store keeps all previous table contents; only
the file-creation side effect of opening the database remains). -/
theorem rebuild_duplicate_id_errors (s : Store) (prov : Provenance)
    (as bs cs : List RawRecord) (c1 c2 : RawRecord)
    (labels : List (String × String)) (now : Int)
    (heq : rid c1 = rid c2) (hne : trimSpace (rid c1) ≠ "") :
    rebuildCamerasIndex true s prov (as ++ c1 :: bs ++ c2 :: cs) labels now
      = ({ s with fileExists := true }, some .insertConflict) := by
  rw [rebuild_true_eq]
  split
  · next t hres =>
    exact absurd (insertRecords_ok_nodup labels now _ _ t hres).1
      (dup_ids_not_nodup now as bs cs c1 c2 heq hne)
  · next e hres =>
    rw [insertRecords_error_eq labels now _ _ e hres]

/-- Witness for C10: two records with id `"cam-1"` abort the rebuild with no
committed change. -/
theorem rebuild_duplicate_id_errors_witness :
    rebuildCamerasIndex true ⟨false, [], [], [], []⟩ ⟨"b", "o", "p"⟩
        ([] ++ [("camera_id", JVal.str "cam-1")] :: [] ++ [("id", JVal.str "cam-1")] :: []) [] 0
      = ({ (⟨false, [], [], [], []⟩ : Store) with fileExists := true }, some .insertConflict) :=
  rebuild_duplicate_id_errors ⟨false, [], [], [], []⟩ ⟨"b", "o", "p"⟩
    [] [] [] [("camera_id", JVal.str "cam-1")] [("id", JVal.str "cam-1")] [] 0
    (by decide) (by decide)



theorem find?_filter_keep {α : Type} (p q : α → Bool) (l : List α)
    (h : ∀ x, p x = true → q x = true) :
    (l.filter q).find? p = l.find? p := by
  induction l with
  | nil => rfl
  | cons a t ih =>
    by_cases hq : q a = true
    · rw [List.filter_cons_of_pos hq]
      by_cases hp : p a = true
      · rw [List.find?_cons_of_pos _ hp, List.find?_cons_of_pos _ hp]
      · rw [List.find?_cons_of_neg _ (by simpa using hp), List.find?_cons_of_neg _ (by simpa using hp)]
        exact ih
    · rw [List.filter_cons_of_neg hq]
      have hp : p a = false := by
        cases hx : p a
        · rfl
        · exact absurd (h a hx) hq
      rw [List.find?_cons_of_neg _ (by simp [hp])]
      exact ih

theorem find?_map_comm {α : Type} (p : α → Bool) (f : α → α) (l : List α)
    (hf : ∀ x, p (f x) = p x) :
    (l.map f).find? p = (l.find? p).map f := by
  induction l with
  | nil => rfl
  | cons a t ih =>
    rw [List.map_cons]
    by_cases hp : p a = true
    · rw [List.find?_cons_of_pos _ (by rw [hf]; exact hp), List.find?_cons_of_pos _ hp]
      rfl
    · rw [List.find?_cons_of_neg _ (by rw [hf]; simpa using hp),
        List.find?_cons_of_neg _ (by simpa using hp)]
      exact ih

theorem ftsOf_ids (labels : List (String × String)) (now : Int) (cams : List RawRecord) :
    (ftsOf labels now cams).map (fun r => r.camera_id)
      = (camerasOf now cams).map (fun r => r.camera_id) := by
  simp only [ftsOf, camerasOf, List.map_map]
  rfl

theorem camerasOf_ids_eq_rid (now : Int) (cams : List RawRecord) :
    (camerasOf now cams).map (fun r => r.camera_id) = (goodRecs cams).map rid := by
  simp only [camerasOf, List.map_map]
  rfl

theorem builtlists_coherent (labels : List (String × String)) (now : Int) :
    ∀ g : List RawRecord, (g.map rid).Nodup →
      ∀ r ∈ g.map (fun c => ftsRowOfCam (labelFor labels (rid c)) (camRowOf now c)),
        r.label = (((g.filterMap (labRowOf labels now)).find?
          (fun l => l.camera_id == r.camera_id)).map (fun l => l.label)).getD "" := by
  intro g
  induction g with
  | nil => simp
  | cons c g' ih =>
    intro hnd r hr
    rw [List.map_cons, List.nodup_cons] at hnd
    obtain ⟨hnot, hnd'⟩ := hnd
    rw [List.map_cons] at hr
    rcases List.mem_cons.mp hr with rfl | hr'
    · by_cases hlab : labelFor labels (rid c) = ""
      · rw [List.filterMap_cons_none (by simp [labRowOf, hlab])]
        have hfind : ((g'.filterMap (labRowOf labels now)).find?
            (fun l => l.camera_id ==
              (ftsRowOfCam (labelFor labels (rid c)) (camRowOf now c)).camera_id)) = none := by
          rw [List.find?_eq_none]
          intro l hl
          rcases List.mem_filterMap.mp hl with ⟨c', hc', hsome⟩
          have hlid : l.camera_id = rid c' := by
            by_cases h' : labelFor labels (rid c') = ""
            · rw [labRowOf, if_pos h'] at hsome
              cases hsome
            · rw [labRowOf, if_neg h'] at hsome
              cases hsome
              rfl
          show ¬ ((l.camera_id == rid c) = true)
          rw [hlid]
          simp only [beq_iff_eq]
          intro hbad
          exact hnot (List.mem_map.mpr ⟨c', hc', hbad⟩)
        rw [hfind]
        exact hlab
      · have hsome : labRowOf labels now c = some ⟨rid c, labelFor labels (rid c), now⟩ := by
          simp [labRowOf, hlab]
        rw [List.filterMap_cons_some hsome]
        rw [List.find?_cons_of_pos _ ?hpa]
        case hpa =>
          show (rid c == rid c) = true
          simp
        rfl
    · have hr'' := ih hnd' r hr'
      have hrid : r.camera_id ∈ g'.map rid := by
        rcases List.mem_map.mp hr' with ⟨c', hc', rfl⟩
        exact List.mem_map.mpr ⟨c', hc', rfl⟩
      have hne : (rid c == r.camera_id) = false := by
        simp only [beq_eq_false_iff_ne, ne_eq]
        intro hbad
        exact hnot (hbad ▸ hrid)
      by_cases hlab : labelFor labels (rid c) = ""
      · rw [List.filterMap_cons_none (by simp [labRowOf, hlab])]
        exact hr''
      · have hsome : labRowOf labels now c = some ⟨rid c, labelFor labels (rid c), now⟩ := by
          simp [labRowOf, hlab]
        rw [List.filterMap_cons_some hsome]
        rw [List.find?_cons_of_neg _ ?hpa]
        case hpa =>
          show ¬ ((rid c == r.camera_id) = true)
          simp [hne]
        exact hr''

theorem rebuild_success_char (s : Store) (prov : Provenance) (cams : List RawRecord)
    (labels : List (String × String)) (now : Int)
    (hnone : (rebuildCamerasIndex true s prov cams labels now).2 = none) :
    (rebuildCamerasIndex true s prov cams labels now).1.cameras = camerasOf now cams ∧
    (rebuildCamerasIndex true s prov cams labels now).1.labels = labelsOf labels now cams ∧
    (rebuildCamerasIndex true s prov cams labels now).1.fts = ftsOf labels now cams ∧
    ((camerasOf now cams).map (fun r => r.camera_id)).Nodup := by
  rw [rebuild_true_eq] at hnone ⊢
  split
  · next t hres =>
    have hr := insertRecords_ok_char labels now cams _ t hres
    simp only [List.nil_append] at hr
    have hnd := (insertRecords_ok_nodup labels now cams _ t hres).1
    exact ⟨hr.2.2.1, hr.2.2.2.1, hr.2.2.2.2, hnd⟩
  · next e hres =>
    rw [hres] at hnone
    exact Option.noConfusion hnone



theorem patch_delete_eq (s : Store) (cameraID : String) (label : Option String) (now : Int)
    (h0 : ¬ trimSpace cameraID = "") (h1 : s.fileExists = true)
    (hnl : (match label with | some l => trimSpace l | none => "") = "") :
    tryUpdateIndexLabel s cameraID label now =
      { s with labels := s.labels.filter (fun r => ¬ (r.camera_id == cameraID)),
               fts := s.fts.filter (fun r => ¬ (r.camera_id == cameraID)) ++
                 ((s.cameras.filter (fun r => r.camera_id == cameraID)).map (ftsRowOfCam "")) } := by
  unfold tryUpdateIndexLabel
  rw [if_neg h0, if_neg (by simp [h1])]
  simp only [hnl, if_pos rfl]
  simp

theorem patch_update_eq (s : Store) (cameraID : String) (l : String) (now : Int)
    (h0 : ¬ trimSpace cameraID = "") (h1 : s.fileExists = true)
    (htl : ¬ trimSpace l = "")
    (hany : s.labels.any (fun r => r.camera_id == cameraID) = true) :
    tryUpdateIndexLabel s cameraID (some l) now =
      { s with labels := s.labels.map (fun r =>
                 if r.camera_id == cameraID then
                   { r with label := trimSpace l, updated_at := now } else r),
               fts := s.fts.filter (fun r => ¬ (r.camera_id == cameraID)) ++
                 ((s.cameras.filter (fun r => r.camera_id == cameraID)).map
                   (ftsRowOfCam (trimSpace l))) } := by
  unfold tryUpdateIndexLabel
  rw [if_neg h0, if_neg (by simp [h1])]
  simp only [if_neg htl, hany, if_pos rfl]
  simp

theorem patch_append_eq (s : Store) (cameraID : String) (l : String) (now : Int)
    (h0 : ¬ trimSpace cameraID = "") (h1 : s.fileExists = true)
    (htl : ¬ trimSpace l = "")
    (hany : s.labels.any (fun r => r.camera_id == cameraID) = false) :
    tryUpdateIndexLabel s cameraID (some l) now =
      { s with labels := s.labels ++ [⟨cameraID, trimSpace l, now⟩],
               fts := s.fts.filter (fun r => ¬ (r.camera_id == cameraID)) ++
                 ((s.cameras.filter (fun r => r.camera_id == cameraID)).map
                   (ftsRowOfCam (trimSpace l))) } := by
  unfold tryUpdateIndexLabel
  rw [if_neg h0, if_neg (by simp [h1])]
  simp only [if_neg htl, hany]
  simp

theorem patch_invariant_core (s : Store) (cameraID nl : String) (L' : List LabelRow)
    (hinv : indexInvariant s)
    (hother : ∀ k : String, k ≠ cameraID →
        L'.find? (fun l => l.camera_id == k) = s.labels.find? (fun l => l.camera_id == k))
    (hself : ((L'.find? (fun l => l.camera_id == cameraID)).map (fun l => l.label)).getD "" = nl) :
    indexInvariant
      { s with
        labels := L',
        fts := s.fts.filter (fun r => ¬ (r.camera_id == cameraID)) ++
          ((s.cameras.filter (fun r => r.camera_id == cameraID)).map (ftsRowOfCam nl)) } := by
  obtain ⟨hids, hcoh⟩ := hinv
  constructor
  · intro x
    simp only [List.map_append, List.mem_append]
    constructor
    · rintro (hx | hx)
      · rcases List.mem_map.mp hx with ⟨r, hr, rfl⟩
        exact (hids _).mp (List.mem_map.mpr ⟨r, List.mem_of_mem_filter hr, rfl⟩)
      · rcases List.mem_map.mp hx with ⟨r, hr, rfl⟩
        rcases List.mem_map.mp hr with ⟨cr, hcr, rfl⟩
        exact List.mem_map.mpr ⟨cr, List.mem_of_mem_filter hcr, rfl⟩
    · intro hx
      rcases List.mem_map.mp hx with ⟨cr, hcr, rfl⟩
      by_cases hc : cr.camera_id = cameraID
      · right
        refine List.mem_map.mpr ⟨ftsRowOfCam nl cr, ?_, rfl⟩
        refine List.mem_map.mpr ⟨cr, ?_, rfl⟩
        rw [List.mem_filter]
        exact ⟨hcr, by simp [hc]⟩
      · left
        have hmem : cr.camera_id ∈ s.fts.map (fun r => r.camera_id) :=
          (hids _).mpr (List.mem_map.mpr ⟨cr, hcr, rfl⟩)
        rcases List.mem_map.mp hmem with ⟨fr, hfr, heq'⟩
        refine List.mem_map.mpr ⟨fr, ?_, heq'⟩
        rw [List.mem_filter]
        refine ⟨hfr, ?_⟩
        simp [heq', hc]
  · intro r hr
    simp only [List.mem_append] at hr
    rcases hr with hr | hr
    · have hrf := List.mem_filter.mp hr
      have hrid : ¬ (r.camera_id = cameraID) := by simpa using hrf.2
      show r.label = ((L'.find? (fun l => l.camera_id == r.camera_id)).map (fun l => l.label)).getD ""
      rw [hother _ hrid]
      exact hcoh r hrf.1
    · rcases List.mem_map.mp hr with ⟨cr, hcr, rfl⟩
      have hcrid : cr.camera_id = cameraID := by simpa using (List.mem_filter.mp hcr).2
      show nl = ((L'.find? (fun l => l.camera_id == (ftsRowOfCam nl cr).camera_id)).map
        (fun l => l.label)).getD ""
      rw [show (ftsRowOfCam nl cr).camera_id = cameraID from hcrid]
      exact hself.symm

theorem labels_filter_find_other (L : List LabelRow) (cid k : String) (hk : k ≠ cid) :
    (L.filter (fun r => ¬ (r.camera_id == cid))).find? (fun l => l.camera_id == k)
      = L.find? (fun l => l.camera_id == k) := by
  apply find?_filter_keep
  intro x hx
  have hxk : x.camera_id = k := by simpa using hx
  simp [hxk, hk]

theorem labels_filter_find_self (L : List LabelRow) (cid : String) :
    (L.filter (fun r => ¬ (r.camera_id == cid))).find? (fun l => l.camera_id == cid) = none := by
  rw [List.find?_eq_none]
  intro x hx
  simpa using (List.mem_filter.mp hx).2

theorem labels_map_find (L : List LabelRow) (cid nl : String) (now : Int) (k : String) :
    (L.map (fun r => if r.camera_id == cid then
        { r with label := nl, updated_at := now } else r)).find? (fun l => l.camera_id == k)
      = (L.find? (fun l => l.camera_id == k)).map (fun r => if r.camera_id == cid then
          { r with label := nl, updated_at := now } else r) := by
  apply find?_map_comm
  intro x
  by_cases hx : (x.camera_id == cid) = true
  · rw [if_pos hx]
  · rw [if_neg hx]

/-! ## Claim theorems: the shadow-table invariant and the label patcher -/

/-- C2: after any successful rebuild, and preserved by any label patch, the
shadow table's `camera_id` set equals the `cameras` table's `camera_id` set,
and each shadow row's label equals the `labels` row's label for that id
(empty when there is no such row). -/
theorem index_invariant_maintained :
    (∀ (mkdirOk : Bool) (s : Store) (prov : Provenance) (cams : List RawRecord)
        (labels : List (String × String)) (now : Int),
      (rebuildCamerasIndex mkdirOk s prov cams labels now).2 = none →
      indexInvariant (rebuildCamerasIndex mkdirOk s prov cams labels now).1)
    ∧ (∀ (s : Store) (cameraID : String) (label : Option String) (now : Int),
      indexInvariant s → indexInvariant (tryUpdateIndexLabel s cameraID label now)) := by
  constructor
  · intro mkdirOk s prov cams labels now hnone
    cases mkdirOk with
    | false =>
      rw [rebuild_false_eq] at hnone
      exact Option.noConfusion hnone
    | true =>
      obtain ⟨hc, hl, hf, hnd⟩ := rebuild_success_char s prov cams labels now hnone
      constructor
      · intro x
        rw [hf, hc, ftsOf_ids]
      · intro r hr
        rw [hf] at hr
        rw [hl]
        have hnd' : ((goodRecs cams).map rid).Nodup := by
          rw [← camerasOf_ids_eq_rid]
          exact hnd
        exact builtlists_coherent labels now (goodRecs cams) hnd' r hr
  · intro s cameraID label now hinv
    by_cases h0 : trimSpace cameraID = ""
    · unfold tryUpdateIndexLabel
      rw [if_pos h0]
      exact hinv
    · by_cases h1 : s.fileExists = true
      · have core := patch_invariant_core s cameraID
        cases label with
        | none =>
          rw [patch_delete_eq s cameraID none now h0 h1 rfl]
          refine core "" _ hinv ?_ ?_
          · intro k hk
            exact labels_filter_find_other s.labels cameraID k hk
          · rw [labels_filter_find_self]
            rfl
        | some l =>
          by_cases htl : trimSpace l = ""
          · rw [patch_delete_eq s cameraID (some l) now h0 h1 (by simpa using htl)]
            refine core "" _ hinv ?_ ?_
            · intro k hk
              exact labels_filter_find_other s.labels cameraID k hk
            · rw [labels_filter_find_self]
              rfl
          · by_cases hany : s.labels.any (fun r => r.camera_id == cameraID) = true
            · rw [patch_update_eq s cameraID l now h0 h1 htl hany]
              refine core (trimSpace l) _ hinv ?_ ?_
              · intro k hk
                rw [labels_map_find]
                cases hfind : s.labels.find? (fun x => x.camera_id == k) with
                | none => rfl
                | some l0 =>
                  have hp : l0.camera_id = k := by simpa using List.find?_some hfind
                  rw [Option.map_some']
                  rw [if_neg (by simp [hp, hk])]
              · rw [labels_map_find]
                obtain ⟨x, hxmem, hxp⟩ := List.any_eq_true.mp hany
                obtain ⟨l0, hl0⟩ : ∃ l0,
                    s.labels.find? (fun x => x.camera_id == cameraID) = some l0 := by
                  rw [← Option.isSome_iff_exists]
                  exact List.find?_isSome.mpr ⟨x, hxmem, hxp⟩
                rw [hl0, Option.map_some']
                rw [if_pos (List.find?_some hl0)]
                rfl
            · rw [patch_append_eq s cameraID l now h0 h1 htl (Bool.eq_false_iff.mpr hany)]
              refine core (trimSpace l) _ hinv ?_ ?_
              · intro k hk
                rw [List.find?_append]
                have hsingle : ([(⟨cameraID, trimSpace l, now⟩ : LabelRow)]).find?
                    (fun x => x.camera_id == k) = none := by
                  rw [List.find?_eq_none]
                  intro x hx
                  rw [List.mem_singleton] at hx
                  subst hx
                  simp
                  intro he
                  exact hk he.symm
                rw [hsingle, Option.or_none]
              · rw [List.find?_append]
                have hnone : s.labels.find? (fun x => x.camera_id == cameraID) = none := by
                  rw [List.find?_eq_none]
                  intro x hx hpx
                  exact hany (List.any_eq_true.mpr ⟨x, hx, hpx⟩)
                rw [hnone, Option.none_or]
                rw [List.find?_cons_of_pos _ ?hpa]
                case hpa =>
                  show (cameraID == cameraID) = true
                  simp
                rfl
      · unfold tryUpdateIndexLabel
        rw [if_neg h0, if_pos h1]
        exact hinv

/-- Witness for C2: the invariant holds after a concrete successful rebuild,
and is preserved by a concrete patch on that state. -/
theorem index_invariant_maintained_witness :
    indexInvariant (rebuildCamerasIndex true ⟨false, [], [], [], []⟩ ⟨"b", "o", "p"⟩
      [[("camera_id", JVal.str "cam-1")]] [] 0).1 :=
  index_invariant_maintained.1 true ⟨false, [], [], [], []⟩ ⟨"b", "o", "p"⟩
    [[("camera_id", JVal.str "cam-1")]] [] 0 (by decide)


/-- C8 counterexample: patching a label for a `camera_id` that is not in the
`cameras` table is not a no-op on stored state — with an existing index file
it writes a `labels` row for that id. -/
theorem label_patch_ghost_writes :
    tryUpdateIndexLabel ⟨true, [], [], [], []⟩ "x" (some "lab") 0
        ≠ (⟨true, [], [], [], []⟩ : Store)
    ∧ "x" ∉ (⟨true, [], [], [], []⟩ : Store).cameras.map (fun r => r.camera_id) := by
  constructor
  · decide
  · decide

/-- C8 amended: a label patch is total (never an error), never touches the
`cameras` or `meta` tables, is a complete no-op when the index file does not
exist or the camera id trims to empty, and for a `camera_id` absent from
`cameras` it creates no shadow row (search visibility is unaffected: the
resulting `cameras_fts` table is the old one minus any rows for that id) —
though the `labels` table may still be written for such an id. -/
theorem label_patch_frame (s : Store) (cameraID : String) (label : Option String) (now : Int) :
    (tryUpdateIndexLabel s cameraID label now).cameras = s.cameras
    ∧ (tryUpdateIndexLabel s cameraID label now).meta = s.meta
    ∧ (s.fileExists = false → tryUpdateIndexLabel s cameraID label now = s)
    ∧ (trimSpace cameraID = "" → tryUpdateIndexLabel s cameraID label now = s)
    ∧ (cameraID ∉ s.cameras.map (fun r => r.camera_id) →
        (tryUpdateIndexLabel s cameraID label now).fts
            = s.fts.filter (fun r => ¬ (r.camera_id == cameraID))
          ∨ tryUpdateIndexLabel s cameraID label now = s) := by
  by_cases h0 : trimSpace cameraID = ""
  · have he : tryUpdateIndexLabel s cameraID label now = s := by
      unfold tryUpdateIndexLabel
      rw [if_pos h0]
    rw [he]
    exact ⟨rfl, rfl, fun _ => rfl, fun _ => rfl, fun _ => Or.inr rfl⟩
  · by_cases h1 : s.fileExists = true
    · have hghost : cameraID ∉ s.cameras.map (fun r => r.camera_id) →
          s.cameras.filter (fun r => r.camera_id == cameraID) = [] := by
        intro hg
        rw [List.filter_eq_nil_iff]
        intro r hr hp
        exact hg (List.mem_map.mpr ⟨r, hr, by simpa using hp⟩)
      have key : ∀ L' : List LabelRow, ∀ nl : String,
          tryUpdateIndexLabel s cameraID label now =
            { s with labels := L',
                     fts := s.fts.filter (fun r => ¬ (r.camera_id == cameraID)) ++
                       ((s.cameras.filter (fun r => r.camera_id == cameraID)).map
                         (ftsRowOfCam nl)) } →
          (tryUpdateIndexLabel s cameraID label now).cameras = s.cameras
          ∧ (tryUpdateIndexLabel s cameraID label now).meta = s.meta
          ∧ (s.fileExists = false → tryUpdateIndexLabel s cameraID label now = s)
          ∧ (trimSpace cameraID = "" → tryUpdateIndexLabel s cameraID label now = s)
          ∧ (cameraID ∉ s.cameras.map (fun r => r.camera_id) →
              (tryUpdateIndexLabel s cameraID label now).fts
                  = s.fts.filter (fun r => ¬ (r.camera_id == cameraID))
                ∨ tryUpdateIndexLabel s cameraID label now = s) := by
        intro L' nl he
        rw [he]
        refine ⟨rfl, rfl, ?_, ?_, ?_⟩
        · intro hfe
          rw [h1] at hfe
          exact Bool.noConfusion hfe
        · intro hcid
          exact absurd hcid h0
        · intro hg
          left
          rw [hghost hg]
          simp
      cases label with
      | none => exact key _ "" (patch_delete_eq s cameraID none now h0 h1 rfl)
      | some l =>
        by_cases htl : trimSpace l = ""
        · exact key _ "" (patch_delete_eq s cameraID (some l) now h0 h1 (by simpa using htl))
        · by_cases hany : s.labels.any (fun r => r.camera_id == cameraID) = true
          · exact key _ (trimSpace l) (patch_update_eq s cameraID l now h0 h1 htl hany)
          · exact key _ (trimSpace l)
              (patch_append_eq s cameraID l now h0 h1 htl (Bool.eq_false_iff.mpr hany))
    · have he : tryUpdateIndexLabel s cameraID label now = s := by
        unfold tryUpdateIndexLabel
        rw [if_neg h0, if_pos h1]
      rw [he]
      exact ⟨rfl, rfl, fun _ => rfl, fun _ => rfl, fun _ => Or.inr rfl⟩

/-- Witness for C8 amended: a patch for an id absent from `cameras` leaves the
shadow table's rows for other ids untouched (concrete instance). -/
theorem label_patch_frame_witness :
    (tryUpdateIndexLabel ⟨true, [], [], [], []⟩ "x" (some "lab") 0).fts
        = (⟨true, [], [], [], []⟩ : Store).fts.filter (fun r => ¬ (r.camera_id == "x"))
      ∨ tryUpdateIndexLabel ⟨true, [], [], [], []⟩ "x" (some "lab") 0
        = (⟨true, [], [], [], []⟩ : Store) :=
  (label_patch_frame ⟨true, [], [], [], []⟩ "x" (some "lab") 0).2.2.2.2 (by decide)

end VerkCli
